import Mathlib

/-!
# Verification of the RRef tracker core (`RRefContext`)

A shallow embedding of `torch/csrc/distributed/rpc/rref_context.{h,cpp}`:
the per-node distributed remote-reference tracker. The C++ class holds six
tables behind one mutex; we model a snapshot of that state as a structure
and each member function as a state-passing Lean function. `TORCH_CHECK` /
`TORCH_INTERNAL_ASSERT` failures are modelled as `Option.none`: the source
aborts before performing any mutation, so a failing call leaves the tables
untouched.

`std::unordered_map` is modelled as an association list whose keys are
unique by the discipline of the source (every insertion is guarded by an
absence check or replaces via `operator[]`); `erase` removes every entry
with the given key, matching map semantics. `std::unordered_set` is a
`List` used as a set (insertions are guarded by absence checks).
-/

namespace RpcRRef

/-- `GloballyUniqueId` from `types.h`: a `(worker_id, local_id)` pair.
Both `RRefId` and `ForkId` are this type. The source uses `int16_t` and
`int64_t`; overflow/wraparound is out of scope, so we use `Nat`. -/
structure GloballyUniqueId where
  createdOn : Nat
  localId : Nat
deriving DecidableEq, Repr

/-- The two reference variants: `OwnerRRef` (holds the value; its owner is
the local worker) and `UserRRef` (a remote handle with its own fork id). -/
inductive RRef where
  | ownerRRef (ownerId : Nat) (rrefId : GloballyUniqueId)
  | userRRef (ownerId : Nat) (rrefId : GloballyUniqueId) (forkId : GloballyUniqueId)
deriving DecidableEq, Repr

/-- `RRef::owner()`: the worker id of the owning node. -/
def RRef.owner : RRef → Nat
  | .ownerRRef o _ => o
  | .userRRef o _ _ => o

/-- `RRef::isOwner()`. -/
def RRef.isOwner : RRef → Bool
  | .ownerRRef _ _ => true
  | .userRRef _ _ _ => false

/-- `RRef::rrefId()`. -/
def RRef.rrefId : RRef → GloballyUniqueId
  | .ownerRRef _ r => r
  | .userRRef _ r _ => r

/-- `RRefForkData`: the serializable fork descriptor returned by
`RRef::fork()` and carried in fork-related messages. -/
structure RRefForkData where
  ownerId : Nat
  rrefId : GloballyUniqueId
  forkId : GloballyUniqueId
deriving DecidableEq, Repr

/-- Outgoing wire messages emitted through `agent_->send` (only the two
kinds `forkTo` can emit are needed). -/
inductive OutMessage where
  | rrefUserAccept (dst : Nat) (rrefId : GloballyUniqueId) (forkId : GloballyUniqueId)
  | rrefForkNotify (dst : Nat) (rrefId : GloballyUniqueId) (forkId : GloballyUniqueId)
      (forkDst : Nat)
deriving DecidableEq, Repr

/-- Map lookup on an association list (`unordered_map::find`). -/
def lookupA {κ : Type} [DecidableEq κ] {α : Type} : List (κ × α) → κ → Option α
  | [], _ => none
  | (k, v) :: rest, key => if k = key then some v else lookupA rest key

/-- Map erase (`unordered_map::erase`): removes every entry with the key;
on a unique-key map this is exactly erasure of the one entry. -/
def eraseA {κ : Type} [DecidableEq κ] {α : Type} :
    List (κ × α) → κ → List (κ × α)
  | [], _ => []
  | (k, v) :: rest, key =>
    if k = key then eraseA rest key else (k, v) :: eraseA rest key

/-- Number of entries for a given key. -/
def countKeyA {κ : Type} [DecidableEq κ] {α : Type} : List (κ × α) → κ → Nat
  | [], _ => 0
  | (k, _) :: rest, key =>
    if k = key then countKeyA rest key + 1 else countKeyA rest key

/-- Set erase (`unordered_set::erase`). -/
def eraseS (s : List GloballyUniqueId) (x : GloballyUniqueId) :
    List GloballyUniqueId :=
  s.filter (fun y => decide (y ≠ x))

/-- The tracker state: the fields of `RRefContext` (plus the thread-local
`rrefArgs_` scratch, the atomic `nextLocalId_` counter, and a log of the
messages handed to `agent_->send`). -/
structure RRefContext where
  workerId : Nat
  nextLocalId : Nat
  owners : List (GloballyUniqueId × RRef)
  forks : List (GloballyUniqueId × List GloballyUniqueId)
  pendingUsers : List (GloballyUniqueId × RRef)
  pendingForkRequests : List (GloballyUniqueId × RRef)
  pendingAcceptedUsers : List GloballyUniqueId
  pendingRRefArgs : List (Int × List RRef)
  rrefArgs : List RRef
  sentMessages : List OutMessage
deriving DecidableEq, Repr

/-- The freshly initialized tracker of a worker: all tables empty. -/
def initCtx (wid : Nat) : RRefContext :=
  { workerId := wid
    nextLocalId := 0
    owners := []
    forks := []
    pendingUsers := []
    pendingForkRequests := []
    pendingAcceptedUsers := []
    pendingRRefArgs := []
    rrefArgs := []
    sentMessages := [] }

/-- `RRefContext::genGloballyUniqueId()` (header, lines 34-36):
`GloballyUniqueId(getWorkerId(), nextLocalId_++)`. -/
def genGloballyUniqueId (ctx : RRefContext) : GloballyUniqueId × RRefContext :=
  (⟨ctx.workerId, ctx.nextLocalId⟩, { ctx with nextLocalId := ctx.nextLocalId + 1 })

/-- Modelled from the spec: `fork()` mints a new `fork_id` through the
identifier allocator and returns the descriptor `{rref_id, fork_id,
parent}` without touching the tracker tables (spec section 4.2; the file
defining `RRef::fork` is not among the reviewed sources). -/
def RRef.fork (r : RRef) (ctx : RRefContext) : RRefForkData × RRefContext :=
  let p := genGloballyUniqueId ctx
  ({ ownerId := r.owner, rrefId := r.rrefId, forkId := p.1 }, p.2)

/-- `RRefContext::createUserRRef(ownerId, rrefId, forkId)` (lines 50-78).
`TORCH_CHECK(ownerId != getWorkerId())`; under the lock, checks the fork is
not already pending, then either registers the new `UserRRef` in
`pendingUsers_` or consumes the early acknowledgement from
`pendingAcceptedUsers_`. -/
def createUserRRef (ctx : RRefContext) (ownerId : Nat)
    (rrefId forkId : GloballyUniqueId) : Option (RRef × RRefContext) :=
  if ownerId = ctx.workerId then none
  else
    let userRRef := RRef.userRRef ownerId rrefId forkId
    if (lookupA ctx.pendingUsers forkId).isSome then none
    else if forkId ∈ ctx.pendingAcceptedUsers then
      some (userRRef,
        { ctx with pendingAcceptedUsers := eraseS ctx.pendingAcceptedUsers forkId })
    else
      some (userRRef,
        { ctx with pendingUsers := (forkId, userRRef) :: ctx.pendingUsers })

/-- `RRefContext::getOrCreateOwnerRRef(rrefId)` (lines 113-133): returns the
existing entry of `owners_`, or constructs `OwnerRRef(getWorkerId(), rrefId)`
and inserts it under `rref->rrefId()`. -/
def getOrCreateOwnerRRef (ctx : RRefContext) (rrefId : GloballyUniqueId) :
    RRef × RRefContext :=
  match lookupA ctx.owners rrefId with
  | none =>
    let rref := RRef.ownerRRef ctx.workerId rrefId
    (rref, { ctx with owners := (rref.rrefId, rref) :: ctx.owners })
  | some r => (r, ctx)

/-- `RRefContext::finishUserRRef(rrefId, forkId)` (lines 218-235): asserts
the fork was not already accepted; drops the `pendingUsers_` entry when it
exists (asserting its `rrefId()` matches), otherwise records the early
acceptance in `pendingAcceptedUsers_`. -/
def finishUserRRef (ctx : RRefContext) (rrefId forkId : GloballyUniqueId) :
    Option RRefContext :=
  if forkId ∈ ctx.pendingAcceptedUsers then none
  else
    match lookupA ctx.pendingUsers forkId with
    | some u =>
      if u.rrefId = rrefId then
        some { ctx with pendingUsers := eraseA ctx.pendingUsers forkId }
      else none
    | none =>
      some { ctx with pendingAcceptedUsers := forkId :: ctx.pendingAcceptedUsers }

/-- `RRefContext::addForkOfOwner(rrefId, forkId)` (lines 237-245):
`forks_[rrefId]` default-constructs an empty set when absent; asserts the
fork is new, then inserts it. -/
def addForkOfOwner (ctx : RRefContext) (rrefId forkId : GloballyUniqueId) :
    Option RRefContext :=
  let rrefForks := (lookupA ctx.forks rrefId).getD []
  if forkId ∈ rrefForks then none
  else
    some { ctx with
      forks := (rrefId, forkId :: rrefForks) :: eraseA ctx.forks rrefId }

/-- `RRefContext::delForkOfOwner(rrefId, forkId)` (lines 247-264): asserts
`forks_[rrefId]` exists and contains `forkId`; then the source executes
`rrefForks.erase(rrefId)` — it erases `rrefId` from the set, not `forkId`
— and tears down `owners_[rrefId]` and `forks_[rrefId]` if the set became
empty. The embedding reproduces the erase of `rrefId` exactly as written. -/
def delForkOfOwner (ctx : RRefContext) (rrefId forkId : GloballyUniqueId) :
    Option RRefContext :=
  match lookupA ctx.forks rrefId with
  | none => none
  | some rrefForks =>
    if forkId ∈ rrefForks then
      let rrefForks' := eraseS rrefForks rrefId
      if rrefForks'.isEmpty then
        some { ctx with
          owners := eraseA ctx.owners rrefId
          forks := eraseA ctx.forks rrefId }
      else
        some { ctx with
          forks := (rrefId, rrefForks') :: eraseA ctx.forks rrefId }
    else none

/-- `RRefContext::addRRefArgs(messageId)` (lines 266-274): asserts the
message id is fresh, then moves the whole thread-local `rrefArgs_` scratch
into `pendingRRefArgs_[messageId]` and clears the scratch. -/
def addRRefArgs (ctx : RRefContext) (messageId : Int) : Option RRefContext :=
  if (lookupA ctx.pendingRRefArgs messageId).isSome then none
  else
    some { ctx with
      pendingRRefArgs := (messageId, ctx.rrefArgs) :: ctx.pendingRRefArgs
      rrefArgs := [] }

/-- `RRefContext::delRRefArgs(messageId)` (lines 276-283): asserts the
entry exists, then erases it. -/
def delRRefArgs (ctx : RRefContext) (messageId : Int) : Option RRefContext :=
  match lookupA ctx.pendingRRefArgs messageId with
  | none => none
  | some _ =>
    some { ctx with pendingRRefArgs := eraseA ctx.pendingRRefArgs messageId }

/-- `RRefContext::forkTo(rref, forkDst)` (lines 141-184): pins `rref` in the
thread-local `rrefArgs_` scratch, produces the fork descriptor, and — only
when the destination differs from the owner — either registers the fork
locally and sends `USER_ACCEPT` (fork from owner), or pins the forking user
in `pendingForkRequests_` and sends `FORK_NOTIFY` to the owner (fork from
user). Send-future callbacks run later and are not part of this call. -/
def forkTo (ctx : RRefContext) (rref : RRef) (forkDst : Nat) :
    Option (RRefForkData × RRefContext) :=
  let ctx1 := { ctx with rrefArgs := ctx.rrefArgs ++ [rref] }
  let p := RRef.fork rref ctx1
  let forkRequest := p.1
  let ctx2 := p.2
  if rref.owner ≠ forkDst then
    if rref.isOwner then
      match addForkOfOwner ctx2 forkRequest.rrefId forkRequest.forkId with
      | none => none
      | some ctx3 =>
        some (forkRequest,
          { ctx3 with sentMessages := ctx3.sentMessages ++
              [OutMessage.rrefUserAccept forkDst forkRequest.rrefId forkRequest.forkId] })
    else
      some (forkRequest,
        { ctx2 with
          pendingForkRequests := (forkRequest.forkId, rref) :: ctx2.pendingForkRequests
          sentMessages := ctx2.sentMessages ++
            [OutMessage.rrefForkNotify rref.owner forkRequest.rrefId
              forkRequest.forkId forkDst] })
  else
    some (forkRequest, ctx2)

/-! ## Association-list and set lemmas -/

theorem lookupA_eraseA_self {κ : Type} [DecidableEq κ] {α : Type}
    (l : List (κ × α)) (k : κ) : lookupA (eraseA l k) k = none := by
  induction l with
  | nil => rfl
  | cons p rest ih =>
    obtain ⟨k', v⟩ := p
    by_cases h : k' = k
    · simp [eraseA, h, ih]
    · simp [eraseA, lookupA, h, ih]

theorem lookupA_eraseA_ne {κ : Type} [DecidableEq κ] {α : Type}
    (l : List (κ × α)) (k k' : κ) (h : k' ≠ k) :
    lookupA (eraseA l k) k' = lookupA l k' := by
  induction l with
  | nil => rfl
  | cons p rest ih =>
    obtain ⟨k₀, v⟩ := p
    by_cases h0 : k₀ = k
    · subst h0
      simp [eraseA, lookupA, Ne.symm h, ih]
    · by_cases h1 : k₀ = k'
      · subst h1
        simp [eraseA, lookupA, h, lookupA]
      · simp [eraseA, lookupA, h0, h1, ih]

theorem mem_of_mem_eraseS {s : List GloballyUniqueId} {a b : GloballyUniqueId}
    (h : a ∈ eraseS s b) : a ∈ s := by
  have := List.mem_filter.mp h
  exact this.1

theorem not_mem_eraseS_self (s : List GloballyUniqueId) (a : GloballyUniqueId) :
    a ∉ eraseS s a := by
  intro h
  have := List.mem_filter.mp h
  simp at this

theorem countKeyA_eq_zero_of_lookup_none {κ : Type} [DecidableEq κ] {α : Type}
    (l : List (κ × α)) (k : κ) (h : lookupA l k = none) : countKeyA l k = 0 := by
  induction l with
  | nil => rfl
  | cons p rest ih =>
    obtain ⟨k₀, v⟩ := p
    by_cases h0 : k₀ = k
    · simp [lookupA, h0] at h
    · simp [lookupA, h0] at h
      simp [countKeyA, h0, ih h]

theorem countKeyA_pos_of_lookup_some {κ : Type} [DecidableEq κ] {α : Type}
    (l : List (κ × α)) (k : κ) (v : α) (h : lookupA l k = some v) :
    1 ≤ countKeyA l k := by
  induction l with
  | nil => simp [lookupA] at h
  | cons p rest ih =>
    obtain ⟨k₀, w⟩ := p
    by_cases h0 : k₀ = k
    · simp [countKeyA, h0]
    · simp [lookupA, h0] at h
      simp [countKeyA, h0]
      exact ih h

/-! ## Iterated identifier generation -/

/-- Result of the `n`-th call (0-indexed) of `genGloballyUniqueId` on a
single worker, threading the counter through the successive calls. -/
def genCalls (ctx : RRefContext) : Nat → GloballyUniqueId × RRefContext
  | 0 => genGloballyUniqueId ctx
  | n + 1 => genGloballyUniqueId (genCalls ctx n).2

theorem genCalls_eq (ctx : RRefContext) (n : Nat) :
    genCalls ctx n = (⟨ctx.workerId, ctx.nextLocalId + n⟩,
      { ctx with nextLocalId := ctx.nextLocalId + n + 1 }) := by
  induction n with
  | zero => rfl
  | succ n ih =>
    simp only [genCalls, ih]
    rfl

/-! ## Concrete states used as failing inputs and witnesses -/

/-- Owner-side state for claim C1: worker 0 owns `(0,1)` with a single
remote fork `(1,2)` registered. -/
def c1Ctx : RRefContext :=
  { initCtx 0 with
    owners := [(⟨0, 1⟩, RRef.ownerRRef 0 ⟨0, 1⟩)]
    forks := [(⟨0, 1⟩, [⟨1, 2⟩])] }

/-- State for claim C9/C10 witnesses: a pending user and a pinned
argument list. -/
def c9Ctx : RRefContext :=
  { initCtx 1 with
    pendingUsers := [(⟨1, 2⟩, RRef.userRRef 0 ⟨0, 1⟩ ⟨1, 2⟩)]
    pendingRRefArgs := [(5, [RRef.userRRef 0 ⟨0, 1⟩ ⟨1, 2⟩])] }

/-! ## Claim theorems -/

/-- C1: the spec says `del_fork_of_owner(rref_id, fork_id)` removes
`fork_id` from `forks[rref_id]` and tears down `forks[rref_id]` /
`owners[rref_id]` when the set empties. The source instead executes
`rrefForks.erase(rrefId)`. At the failing input — `forks[(0,1)] = {(1,2)}`
and a registered owner — deleting fork `(1,2)` succeeds but leaves
`(1,2)` in `forks[(0,1)]` and leaves the `owners` entry in place: the
terminal teardown never happens. -/
theorem delForkOfOwner_erases_rrefId_not_forkId :
    (delForkOfOwner c1Ctx ⟨0, 1⟩ ⟨1, 2⟩).map
        (fun c => (lookupA c.forks ⟨0, 1⟩, (lookupA c.owners ⟨0, 1⟩).isSome))
      = some (some [⟨1, 2⟩], true) := by decide

/-- C2: `createUserRRef` fails when the owner is the local worker, fails
when the fork is already pending, and otherwise returns the constructed
`UserRRef` leaving the fork either registered in `pendingUsers_` (no early
accept) or consumed from `pendingAcceptedUsers_` (early accept). -/
theorem createUserRRef_spec (ctx : RRefContext) (ownerId : Nat)
    (rrefId forkId : GloballyUniqueId) :
    (ownerId = ctx.workerId → createUserRRef ctx ownerId rrefId forkId = none) ∧
    ((lookupA ctx.pendingUsers forkId).isSome = true →
      createUserRRef ctx ownerId rrefId forkId = none) ∧
    (ownerId ≠ ctx.workerId → lookupA ctx.pendingUsers forkId = none →
      ∃ ctx', createUserRRef ctx ownerId rrefId forkId
          = some (RRef.userRRef ownerId rrefId forkId, ctx') ∧
        ((forkId ∉ ctx.pendingAcceptedUsers ∧
            lookupA ctx'.pendingUsers forkId
              = some (RRef.userRRef ownerId rrefId forkId)) ∨
          (forkId ∈ ctx.pendingAcceptedUsers ∧
            forkId ∉ ctx'.pendingAcceptedUsers))) := by
  refine ⟨fun h => by simp [createUserRRef, h], fun h => ?_, fun ho hl => ?_⟩
  · unfold createUserRRef
    by_cases h0 : ownerId = ctx.workerId
    · simp [h0]
    · simp [h0, h]
  · by_cases hm : forkId ∈ ctx.pendingAcceptedUsers
    · exact ⟨{ ctx with pendingAcceptedUsers := eraseS ctx.pendingAcceptedUsers forkId },
        by simp [createUserRRef, ho, hl, hm],
        Or.inr ⟨hm, not_mem_eraseS_self _ _⟩⟩
    · exact ⟨{ ctx with
          pendingUsers := (forkId, RRef.userRRef ownerId rrefId forkId) :: ctx.pendingUsers },
        by simp [createUserRRef, ho, hl, hm],
        Or.inl ⟨hm, by simp [lookupA]⟩⟩

/-- C2 witness: on worker 1's fresh tracker, creating a user for owner 0
succeeds and registers the fork in `pendingUsers`. -/
theorem createUserRRef_spec_witness :
    ∃ ctx', createUserRRef (initCtx 1) 0 ⟨0, 1⟩ ⟨1, 2⟩
        = some (RRef.userRRef 0 ⟨0, 1⟩ ⟨1, 2⟩, ctx') ∧
      (((⟨1, 2⟩ : GloballyUniqueId) ∉ (initCtx 1).pendingAcceptedUsers ∧
          lookupA ctx'.pendingUsers ⟨1, 2⟩
            = some (RRef.userRRef 0 ⟨0, 1⟩ ⟨1, 2⟩)) ∨
        ((⟨1, 2⟩ : GloballyUniqueId) ∈ (initCtx 1).pendingAcceptedUsers ∧
          (⟨1, 2⟩ : GloballyUniqueId) ∉ ctx'.pendingAcceptedUsers)) := by
  obtain ⟨ctx', h1, h2⟩ :=
    (createUserRRef_spec (initCtx 1) 0 ⟨0, 1⟩ ⟨1, 2⟩).2.2 (by decide) (by decide)
  exact ⟨ctx', h1, h2⟩

/-- C6: `forkTo(rref, dst)` with `dst == rref->owner()` sends nothing,
leaves every tracker table unchanged, returns exactly the descriptor
produced by `rref->fork()`, and pins `rref` on the thread-local
`rrefArgs_` scratch. -/
theorem forkTo_to_owner (ctx : RRefContext) (rref : RRef) (dst : Nat)
    (h : dst = rref.owner) :
    ∃ fd ctx',
      forkTo ctx rref dst = some (fd, ctx') ∧
      fd = (RRef.fork rref { ctx with rrefArgs := ctx.rrefArgs ++ [rref] }).1 ∧
      ctx'.owners = ctx.owners ∧
      ctx'.forks = ctx.forks ∧
      ctx'.pendingUsers = ctx.pendingUsers ∧
      ctx'.pendingForkRequests = ctx.pendingForkRequests ∧
      ctx'.pendingAcceptedUsers = ctx.pendingAcceptedUsers ∧
      ctx'.sentMessages = ctx.sentMessages ∧
      ctx'.rrefArgs = ctx.rrefArgs ++ [rref] := by
  subst h
  refine ⟨(RRef.fork rref { ctx with rrefArgs := ctx.rrefArgs ++ [rref] }).1,
    { ctx with rrefArgs := ctx.rrefArgs ++ [rref], nextLocalId := ctx.nextLocalId + 1 },
    ?_, rfl, rfl, rfl, rfl, rfl, rfl, rfl, rfl⟩
  simp [forkTo, RRef.fork, genGloballyUniqueId]

/-- C6 witness: forking worker 2's reference back to its owner on worker
2 from worker 1's tracker. -/
theorem forkTo_to_owner_witness :
    ∃ fd ctx',
      forkTo (initCtx 1) (RRef.userRRef 2 ⟨2, 3⟩ ⟨1, 4⟩) 2 = some (fd, ctx') ∧
      fd = (RRef.fork (RRef.userRRef 2 ⟨2, 3⟩ ⟨1, 4⟩)
          { initCtx 1 with
            rrefArgs := (initCtx 1).rrefArgs ++ [RRef.userRRef 2 ⟨2, 3⟩ ⟨1, 4⟩] }).1 ∧
      ctx'.owners = (initCtx 1).owners ∧
      ctx'.forks = (initCtx 1).forks ∧
      ctx'.pendingUsers = (initCtx 1).pendingUsers ∧
      ctx'.pendingForkRequests = (initCtx 1).pendingForkRequests ∧
      ctx'.pendingAcceptedUsers = (initCtx 1).pendingAcceptedUsers ∧
      ctx'.sentMessages = (initCtx 1).sentMessages ∧
      ctx'.rrefArgs = (initCtx 1).rrefArgs ++ [RRef.userRRef 2 ⟨2, 3⟩ ⟨1, 4⟩] :=
  forkTo_to_owner (initCtx 1) (RRef.userRRef 2 ⟨2, 3⟩ ⟨1, 4⟩) 2 (by decide)

/-- C7: `addRRefArgs(m)` (on a fresh message id) moves the whole
`rrefArgs_` scratch into `pendingRRefArgs_[m]` and clears the scratch;
`delRRefArgs(m)` (on a present id) removes the `m` entry and leaves every
other message id's entry unchanged. -/
theorem rrefArgs_pin_release (ctx : RRefContext) (m : Int) :
    (lookupA ctx.pendingRRefArgs m = none →
      ∃ ctx', addRRefArgs ctx m = some ctx' ∧
        lookupA ctx'.pendingRRefArgs m = some ctx.rrefArgs ∧
        ctx'.rrefArgs = []) ∧
    (∀ args, lookupA ctx.pendingRRefArgs m = some args →
      ∃ ctx', delRRefArgs ctx m = some ctx' ∧
        lookupA ctx'.pendingRRefArgs m = none ∧
        ∀ m', m' ≠ m →
          lookupA ctx'.pendingRRefArgs m' = lookupA ctx.pendingRRefArgs m') := by
  constructor
  · intro h
    refine ⟨{ ctx with
        pendingRRefArgs := (m, ctx.rrefArgs) :: ctx.pendingRRefArgs
        rrefArgs := [] }, ?_, ?_, rfl⟩
    · simp [addRRefArgs, h]
    · simp [lookupA]
  · intro args h
    refine ⟨{ ctx with pendingRRefArgs := eraseA ctx.pendingRRefArgs m }, ?_, ?_, ?_⟩
    · simp [delRRefArgs, h]
    · exact lookupA_eraseA_self _ _
    · intro m' hm'
      exact lookupA_eraseA_ne _ _ _ hm'

/-- C7 witness: pinning and releasing on concrete states. -/
theorem rrefArgs_pin_release_witness :
    (∃ ctx', addRRefArgs (initCtx 1) 7 = some ctx' ∧
      lookupA ctx'.pendingRRefArgs 7 = some (initCtx 1).rrefArgs ∧
      ctx'.rrefArgs = []) ∧
    (∃ ctx', delRRefArgs c9Ctx 5 = some ctx' ∧
      lookupA ctx'.pendingRRefArgs 5 = none ∧
      ∀ m', m' ≠ 5 →
        lookupA ctx'.pendingRRefArgs m' = lookupA c9Ctx.pendingRRefArgs m') :=
  ⟨(rrefArgs_pin_release (initCtx 1) 7).1 (by decide),
    (rrefArgs_pin_release c9Ctx 5).2 [RRef.userRRef 0 ⟨0, 1⟩ ⟨1, 2⟩] (by decide)⟩

/-- C8: every identifier minted on a worker carries the local worker id,
and across successive calls the `local_id` strictly increases, so no two
calls ever return the same identifier. -/
theorem genGloballyUniqueId_monotone_unique (ctx : RRefContext) (m n : Nat)
    (h : m < n) :
    (genCalls ctx m).1.createdOn = ctx.workerId ∧
    (genCalls ctx m).1.localId < (genCalls ctx n).1.localId ∧
    (genCalls ctx m).1 ≠ (genCalls ctx n).1 := by
  simp [genCalls_eq, GloballyUniqueId.mk.injEq]
  omega

/-- C8 witness: the first two ids minted on a fresh worker-0 tracker. -/
theorem genGloballyUniqueId_monotone_unique_witness :
    (genCalls (initCtx 0) 0).1.createdOn = (initCtx 0).workerId ∧
    (genCalls (initCtx 0) 0).1.localId < (genCalls (initCtx 0) 1).1.localId ∧
    (genCalls (initCtx 0) 0).1 ≠ (genCalls (initCtx 0) 1).1 :=
  genGloballyUniqueId_monotone_unique (initCtx 0) 0 1 (by decide)

/-- C9: when `pendingUsers_[forkId]` holds a user whose `rrefId()` differs
from the `rrefId` argument, `finishUserRRef` fails
(`TORCH_INTERNAL_ASSERT` on the id match fires before any removal). -/
theorem finishUserRRef_mismatch_fails (ctx : RRefContext)
    (rrefId forkId : GloballyUniqueId) (u : RRef)
    (h1 : lookupA ctx.pendingUsers forkId = some u)
    (h2 : u.rrefId ≠ rrefId) :
    finishUserRRef ctx rrefId forkId = none := by
  unfold finishUserRRef
  by_cases hm : forkId ∈ ctx.pendingAcceptedUsers
  · simp [hm]
  · simp [hm, h1, h2]

/-- C9 witness: the pending user for rref `(0,1)` rejects an accept naming
rref `(0, 9)`. -/
theorem finishUserRRef_mismatch_fails_witness :
    finishUserRRef c9Ctx ⟨0, 9⟩ ⟨1, 2⟩ = none :=
  finishUserRRef_mismatch_fails c9Ctx ⟨0, 9⟩ ⟨1, 2⟩
    (RRef.userRRef 0 ⟨0, 1⟩ ⟨1, 2⟩) (by decide) (by decide)

/-- C10: `addRRefArgs(m)` on a message id that already has a pinned list
fails; since the assertion fires before any write (here: before any state
is produced), `pendingRRefArgs_` is left unchanged. -/
theorem addRRefArgs_duplicate_fails (ctx : RRefContext) (m : Int)
    (h : (lookupA ctx.pendingRRefArgs m).isSome = true) :
    addRRefArgs ctx m = none := by
  simp [addRRefArgs, h]

/-- C10 witness: re-pinning message id 5, which is already pinned. -/
theorem addRRefArgs_duplicate_fails_witness :
    addRRefArgs c9Ctx 5 = none :=
  addRRefArgs_duplicate_fails c9Ctx 5 (by decide)

/-! ## Iterated owner lookup (for idempotence of `getOrCreateOwnerRRef`) -/

/-- Result of call number `k + 1` of `getOrCreateOwnerRRef` for a fixed
`rrefId`, threading the state through the successive calls. -/
def ownerCalls (rrefId : GloballyUniqueId) (ctx : RRefContext) :
    Nat → RRef × RRefContext
  | 0 => getOrCreateOwnerRRef ctx rrefId
  | k + 1 => getOrCreateOwnerRRef (ownerCalls rrefId ctx k).2 rrefId

theorem getOrCreateOwnerRRef_found (ctx : RRefContext) (rrefId : GloballyUniqueId)
    (r : RRef) (h : lookupA ctx.owners rrefId = some r) :
    getOrCreateOwnerRRef ctx rrefId = (r, ctx) := by
  simp [getOrCreateOwnerRRef, h]

theorem getOrCreateOwnerRRef_lookup (ctx : RRefContext) (rrefId : GloballyUniqueId) :
    lookupA (getOrCreateOwnerRRef ctx rrefId).2.owners rrefId
      = some (getOrCreateOwnerRRef ctx rrefId).1 := by
  unfold getOrCreateOwnerRRef
  cases h : lookupA ctx.owners rrefId with
  | none => simp [h, RRef.rrefId, lookupA]
  | some r => simp [h]

theorem ownerCalls_fixed (rrefId : GloballyUniqueId) (ctx : RRefContext) (k : Nat) :
    ownerCalls rrefId ctx k = getOrCreateOwnerRRef ctx rrefId := by
  induction k with
  | zero => rfl
  | succ k ih =>
    simp only [ownerCalls, ih]
    rw [getOrCreateOwnerRRef_found _ _ _ (getOrCreateOwnerRRef_lookup ctx rrefId)]

theorem countKeyA_getOrCreate (ctx : RRefContext) (rrefId : GloballyUniqueId)
    (h : countKeyA ctx.owners rrefId ≤ 1) :
    countKeyA (getOrCreateOwnerRRef ctx rrefId).2.owners rrefId = 1 := by
  unfold getOrCreateOwnerRRef
  cases hl : lookupA ctx.owners rrefId with
  | none =>
    simp [RRef.rrefId, countKeyA]
    exact countKeyA_eq_zero_of_lookup_none _ _ hl
  | some r =>
    simp
    have := countKeyA_pos_of_lookup_some _ _ _ hl
    omega

/-! ## More claim theorems -/

/-- C3 counterexample: on a state whose `pendingUsers_` holds fork `(1,2)`
(worker 1's usual situation after `createUserRRef`), calling
`finishUserRRef` twice with the same fork id does NOT fail the second
time: the first call drains `pendingUsers_`, so the second call takes the
accept-before-create branch and succeeds. -/
theorem finishUserRRef_twice_succeeds :
    ((finishUserRRef c9Ctx ⟨0, 1⟩ ⟨1, 2⟩).bind
        (fun c => finishUserRRef c ⟨0, 1⟩ ⟨1, 2⟩)).isSome = true := by decide

/-- C3 amended: `finishUserRRef` fails when the fork is already in
`pendingAcceptedUsers_`; otherwise, with no `pendingUsers_` entry it
records the fork in `pendingAcceptedUsers_` — and only then does a second
identical call fail; with a matching `pendingUsers_` entry it removes the
entry, leaves `pendingAcceptedUsers_` alone, and a second identical call
succeeds (recording a spurious early accept). -/
theorem finishUserRRef_amended (ctx : RRefContext)
    (rrefId forkId : GloballyUniqueId) :
    (forkId ∈ ctx.pendingAcceptedUsers → finishUserRRef ctx rrefId forkId = none) ∧
    (forkId ∉ ctx.pendingAcceptedUsers → lookupA ctx.pendingUsers forkId = none →
      ∃ ctx', finishUserRRef ctx rrefId forkId = some ctx' ∧
        ctx'.pendingUsers = ctx.pendingUsers ∧
        forkId ∈ ctx'.pendingAcceptedUsers ∧
        finishUserRRef ctx' rrefId forkId = none) ∧
    (∀ u : RRef, forkId ∉ ctx.pendingAcceptedUsers →
      lookupA ctx.pendingUsers forkId = some u → u.rrefId = rrefId →
      ∃ ctx', finishUserRRef ctx rrefId forkId = some ctx' ∧
        lookupA ctx'.pendingUsers forkId = none ∧
        ctx'.pendingAcceptedUsers = ctx.pendingAcceptedUsers ∧
        (finishUserRRef ctx' rrefId forkId).isSome = true) := by
  refine ⟨fun h => by simp [finishUserRRef, h], fun h hl => ?_, fun u h hl hr => ?_⟩
  · refine ⟨{ ctx with pendingAcceptedUsers := forkId :: ctx.pendingAcceptedUsers },
      by simp [finishUserRRef, h, hl], rfl, by simp, ?_⟩
    simp [finishUserRRef]
  · refine ⟨{ ctx with pendingUsers := eraseA ctx.pendingUsers forkId },
      by simp [finishUserRRef, h, hl, hr], lookupA_eraseA_self _ _, rfl, ?_⟩
    simp [finishUserRRef, h, lookupA_eraseA_self]

/-- C3 amended witness: the early-accept path on a fresh tracker, where
the duplicate accept is indeed rejected. -/
theorem finishUserRRef_amended_witness :
    ∃ ctx', finishUserRRef (initCtx 1) ⟨0, 1⟩ ⟨1, 2⟩ = some ctx' ∧
      ctx'.pendingUsers = (initCtx 1).pendingUsers ∧
      (⟨1, 2⟩ : GloballyUniqueId) ∈ ctx'.pendingAcceptedUsers ∧
      finishUserRRef ctx' ⟨0, 1⟩ ⟨1, 2⟩ = none :=
  (finishUserRRef_amended (initCtx 1) ⟨0, 1⟩ ⟨1, 2⟩).2.1 (by decide) (by decide)

/-- C5: calling `getOrCreateOwnerRRef` `k + 1` times for the same
`rrefId` returns the same owner reference every time; after the calls,
`owners_` holds exactly one entry for `rrefId`; the first call (when the
id is unknown) inserts the freshly constructed `OwnerRRef`, and all later
calls return the stored reference without touching the state. -/
theorem getOrCreateOwnerRRef_idempotent (ctx : RRefContext)
    (rrefId : GloballyUniqueId) (h : countKeyA ctx.owners rrefId ≤ 1) (k : Nat) :
    (ownerCalls rrefId ctx k).1 = (getOrCreateOwnerRRef ctx rrefId).1 ∧
    (ownerCalls rrefId ctx k).2 = (getOrCreateOwnerRRef ctx rrefId).2 ∧
    countKeyA (ownerCalls rrefId ctx k).2.owners rrefId = 1 ∧
    (lookupA ctx.owners rrefId = none →
      (ownerCalls rrefId ctx k).1 = RRef.ownerRRef ctx.workerId rrefId ∧
      (getOrCreateOwnerRRef ctx rrefId).2.owners
        = (rrefId, RRef.ownerRRef ctx.workerId rrefId) :: ctx.owners) ∧
    (∀ r : RRef, lookupA ctx.owners rrefId = some r →
      (ownerCalls rrefId ctx k).1 = r ∧ (ownerCalls rrefId ctx k).2 = ctx) := by
  rw [ownerCalls_fixed]
  refine ⟨rfl, rfl, countKeyA_getOrCreate ctx rrefId h, fun hn => ?_, fun r hr => ?_⟩
  · simp [getOrCreateOwnerRRef, hn, RRef.rrefId]
  · simp [getOrCreateOwnerRRef_found _ _ _ hr]

/-- C5 witness: three calls on a fresh worker-0 tracker all return the new
owner of `(0,1)` and leave a single `owners` entry. -/
theorem getOrCreateOwnerRRef_idempotent_witness :
    (ownerCalls ⟨0, 1⟩ (initCtx 0) 2).1
        = (getOrCreateOwnerRRef (initCtx 0) ⟨0, 1⟩).1 ∧
    (ownerCalls ⟨0, 1⟩ (initCtx 0) 2).2
        = (getOrCreateOwnerRRef (initCtx 0) ⟨0, 1⟩).2 ∧
    countKeyA (ownerCalls ⟨0, 1⟩ (initCtx 0) 2).2.owners ⟨0, 1⟩ = 1 ∧
    (lookupA (initCtx 0).owners ⟨0, 1⟩ = none →
      (ownerCalls ⟨0, 1⟩ (initCtx 0) 2).1 = RRef.ownerRRef (initCtx 0).workerId ⟨0, 1⟩ ∧
      (getOrCreateOwnerRRef (initCtx 0) ⟨0, 1⟩).2.owners
        = (⟨0, 1⟩, RRef.ownerRRef (initCtx 0).workerId ⟨0, 1⟩) :: (initCtx 0).owners) ∧
    (∀ r : RRef, lookupA (initCtx 0).owners ⟨0, 1⟩ = some r →
      (ownerCalls ⟨0, 1⟩ (initCtx 0) 2).1 = r ∧
      (ownerCalls ⟨0, 1⟩ (initCtx 0) 2).2 = initCtx 0) :=
  getOrCreateOwnerRRef_idempotent (initCtx 0) ⟨0, 1⟩ (by decide) 2

/-! ## Reachable states and the pending-tables disjointness invariant -/

/-- States reachable on a worker by any interleaving of successful
`createUserRRef` and `finishUserRRef` calls, starting from the freshly
initialized tracker. -/
inductive Reachable (wid : Nat) : RRefContext → Prop where
  | init : Reachable wid (initCtx wid)
  | createUser {ctx ctx' : RRefContext} {ownerId : Nat}
      {rrefId forkId : GloballyUniqueId} {u : RRef} :
      Reachable wid ctx →
      createUserRRef ctx ownerId rrefId forkId = some (u, ctx') →
      Reachable wid ctx'
  | finishUser {ctx ctx' : RRefContext} {rrefId forkId : GloballyUniqueId} :
      Reachable wid ctx →
      finishUserRRef ctx rrefId forkId = some ctx' →
      Reachable wid ctx'

/-- No fork id is simultaneously a `pendingUsers_` key and a
`pendingAcceptedUsers_` member. -/
def PendingDisjoint (ctx : RRefContext) : Prop :=
  ∀ f : GloballyUniqueId,
    (lookupA ctx.pendingUsers f).isSome = true → f ∉ ctx.pendingAcceptedUsers

theorem createUserRRef_preserves_disjoint {ctx ctx' : RRefContext}
    {ownerId : Nat} {rrefId forkId : GloballyUniqueId} {u : RRef}
    (hinv : PendingDisjoint ctx)
    (h : createUserRRef ctx ownerId rrefId forkId = some (u, ctx')) :
    PendingDisjoint ctx' := by
  unfold createUserRRef at h
  split at h
  · exact absurd h (by simp)
  · split at h
    · exact absurd h (by simp)
    · split at h
      · rename_i hmem
        simp only [Option.some.injEq, Prod.mk.injEq] at h
        obtain ⟨-, hctx⟩ := h
        subst hctx
        intro g hg hgmem
        exact hinv g hg (mem_of_mem_eraseS hgmem)
      · rename_i hmem
        simp only [Option.some.injEq, Prod.mk.injEq] at h
        obtain ⟨hu, hctx⟩ := h
        subst hctx
        intro g hg hgmem
        by_cases hgf : forkId = g
        · subst hgf
          exact hmem hgmem
        · simp only [lookupA, hgf, if_false] at hg
          exact hinv g hg hgmem

theorem finishUserRRef_preserves_disjoint {ctx ctx' : RRefContext}
    {rrefId forkId : GloballyUniqueId}
    (hinv : PendingDisjoint ctx)
    (h : finishUserRRef ctx rrefId forkId = some ctx') :
    PendingDisjoint ctx' := by
  unfold finishUserRRef at h
  split at h
  · exact absurd h (by simp)
  · rename_i hmem
    split at h
    · rename_i u hu
      split at h
      · simp only [Option.some.injEq] at h
        subst h
        intro g hg hgmem
        by_cases hgf : g = forkId
        · subst hgf
          rw [lookupA_eraseA_self] at hg
          simp at hg
        · rw [lookupA_eraseA_ne _ _ _ hgf] at hg
          exact hinv g hg hgmem
      · exact absurd h (by simp)
    · rename_i hu
      simp only [Option.some.injEq] at h
      subst h
      intro g hg hgmem
      simp only [List.mem_cons] at hgmem
      rcases hgmem with hgf | hgmem
      · subst hgf
        rw [hu] at hg
        simp at hg
      · exact hinv g hg hgmem

/-- C4: in every reachable tracker state — any interleaving of successful
`createUserRRef` and `finishUserRRef` calls from the empty state — no fork
id is simultaneously a key of `pendingUsers_` and a member of
`pendingAcceptedUsers_`. -/
theorem reachable_pending_disjoint (wid : Nat) (ctx : RRefContext)
    (h : Reachable wid ctx) (forkId : GloballyUniqueId) :
    ¬((lookupA ctx.pendingUsers forkId).isSome = true ∧
      forkId ∈ ctx.pendingAcceptedUsers) := by
  have hd : PendingDisjoint ctx := by
    induction h with
    | init => intro g hg; simp [initCtx, lookupA] at hg
    | createUser hr hc ih => exact createUserRRef_preserves_disjoint ih hc
    | finishUser hr hc ih => exact finishUserRRef_preserves_disjoint ih hc
  intro hboth
  exact hd forkId hboth.1 hboth.2

/-- C4 witness: the invariant instantiated at the initial state of
worker 0 and fork `(1,2)`. -/
theorem reachable_pending_disjoint_witness :
    ¬((lookupA (initCtx 0).pendingUsers ⟨1, 2⟩).isSome = true ∧
      (⟨1, 2⟩ : GloballyUniqueId) ∈ (initCtx 0).pendingAcceptedUsers) :=
  reachable_pending_disjoint 0 (initCtx 0) Reachable.init ⟨1, 2⟩

end RpcRRef
